import Mathlib

/-!
# Verification of the locksmith-ETA dispatch core

Shallow embedding of the Python sources of the `get-locksmith-eta` Lambda:

* `address_utils.py` — address variant transforms and fuzzy geocoding
  (`normalize_address`, `remove_unit`, `remove_secondary`,
  `extract_street_city_state`, `extract_street_zip`,
  `geocode_with_fuzzy_matching`);
* `travel_time.py` — travel-time estimation with routing primary path and
  haversine fallback (`calculate_travel_time_with_coords`,
  `calculate_travel_time_fallback`);
* `dynamo_utils.py` — availability calculation and dispatch
  (`calculate_locksmith_eta`, `find_earliest_locksmith`,
  `update_next_available_cache`);
* `metrics.py` — the in-process metric buffer (`record_geocoding_success`),
  modelled as the list of events appended during one call.

External collaborators (the HERE geocoding provider, the HERE routing
provider, the credential store and the current company name) are parameters
of a `GeoEnv` record.  Side effects (geocoder invocations, the DynamoDB
`base_address` write, the cache `put_item`) are modelled as an explicit
trace of events returned alongside each value.  Python floats are modelled
as rationals (job durations, routing seconds) and reals (coordinates, the
haversine computation); the minute values the estimator returns are
integers, as in the code.  Python string operations (`upper`, `title`,
`strip`, regexes) are embedded for the ASCII fragment the code manipulates.
-/

/-! ## Character helpers (Python `str` semantics, ASCII fragment) -/

/-- Regex `\w`: ASCII letters, digits and underscore. -/
def isWordChar (c : Char) : Bool := c.isAlphanum || c = '_'

/-- Regex `\s` / Python `str.strip` whitespace (ASCII). -/
def isSpaceChar (c : Char) : Bool :=
  c = ' ' || c = '\t' || c = '\n' || c = '\r' || c = '\x0b' || c = '\x0c'

/-- Python `str.upper` on the character list of a string. -/
def upperChars (l : List Char) : List Char := l.map Char.toUpper

/-- Python `str.title`: the first letter of every maximal letter run is
uppercased, the others lowercased; the `Bool` argument says whether the
previous character was a letter. -/
def titleChars : Bool → List Char → List Char
  | _, [] => []
  | prevAlpha, c :: cs =>
    if c.isAlpha then
      (if prevAlpha then c.toLower else c.toUpper) :: titleChars true cs
    else c :: titleChars false cs

/-- Maximal runs of word characters / non-word characters (the structure the
regex word boundary `\b` sees). -/
def tokenize : List Char → List (List Char)
  | [] => []
  | c :: cs =>
    match tokenize cs with
    | [] => [[c]]
    | [] :: ts => [c] :: [] :: ts
    | (d :: t) :: ts =>
      if isWordChar c = isWordChar d then (c :: d :: t) :: ts
      else [c] :: (d :: t) :: ts

/-- `re.sub(r'\b<pat>\b', rep, ·)` for a pattern consisting only of word
characters: exactly the maximal word-character runs equal to `pat` are
replaced. -/
def substWord (pat rep : List Char) (l : List Char) : List Char :=
  ((tokenize l).map fun t => if t = pat then rep else t).flatten

/-! ## `address_utils.py`: the variant transforms -/

/-- The `abbrev_map` dict of `normalize_address`, in insertion order. -/
def abbrev_map : List (String × String) :=
  [("STREET", "ST"), ("AVENUE", "AVE"), ("BOULEVARD", "BLVD"),
   ("DRIVE", "DR"), ("ROAD", "RD"), ("LANE", "LN"), ("COURT", "CT"),
   ("CIRCLE", "CIR"), ("PLACE", "PL"), ("HIGHWAY", "HWY"),
   ("PARKWAY", "PKWY"), ("APARTMENT", "APT"), ("SUITE", "STE"),
   ("NORTH", "N"), ("SOUTH", "S"), ("EAST", "E"), ("WEST", "W"),
   ("NORTHEAST", "NE"), ("NORTHWEST", "NW"), ("SOUTHEAST", "SE"),
   ("SOUTHWEST", "SW")]

/-- `normalize_address`: uppercase, whole-word abbreviation replacement in
dict order, then title case.  The falsy check `if not address` is the
empty-string test. -/
def normalize_address (address : String) : String :=
  if address = "" then address
  else
    ⟨titleChars false
      (abbrev_map.foldl (fun a p => substWord p.1.data p.2.data a)
        (upperChars address.data))⟩

/-- Regex class `[\w-]`. -/
def wordHyphen (c : Char) : Bool := isWordChar c || c = '-'

/-- The `\s*[\w-]+` tail of the unit pattern: number of characters it
consumes from `l`, or `none` when the mandatory `[\w-]+` part is empty
(whitespace and `[\w-]` are disjoint, so the regex cannot backtrack into a
match here). -/
def unitTailLen (l : List Char) : Option Nat :=
  let sp := l.takeWhile isSpaceChar
  let w := (l.drop sp.length).takeWhile wordHyphen
  if w = [] then none else some (sp.length + w.length)

/-- Length of a match of `\b(?:APT|UNIT|STE|#)\s*[\w-]+` (IGNORECASE)
anchored at the head of `l`; `prevWord` is whether the character just before
`l` is a word character (the `\b` test), `0` means no match.  The
alternatives start with distinct letters, so the leftmost alternative test
is deterministic. -/
def unitMatchLen (prevWord : Bool) (l : List Char) : Nat :=
  match l with
  | [] => 0
  | c :: cs =>
    if c = '#' then
      if prevWord then
        match unitTailLen cs with
        | some n => 1 + n
        | none => 0
      else 0
    else if prevWord then 0
    else if (l.take 3).map Char.toUpper = "APT".data then
      match unitTailLen (l.drop 3) with
      | some n => 3 + n
      | none => 0
    else if (l.take 4).map Char.toUpper = "UNIT".data then
      match unitTailLen (l.drop 4) with
      | some n => 4 + n
      | none => 0
    else if (l.take 3).map Char.toUpper = "STE".data then
      match unitTailLen (l.drop 3) with
      | some n => 3 + n
      | none => 0
    else 0

/-- Global `re.sub(pattern, '', s)` scan for the unit pattern: left to
right, removing each non-overlapping match and continuing after it.  `skip`
counts characters of the current match still to drop. -/
def removeUnitScan (skip : Nat) (prevWord : Bool) : List Char → List Char
  | [] => []
  | c :: cs =>
    match skip with
    | k + 1 => removeUnitScan k (isWordChar c) cs
    | 0 =>
      match unitMatchLen prevWord (c :: cs) with
      | 0 => c :: removeUnitScan 0 (isWordChar c) cs
      | n + 1 => removeUnitScan n (isWordChar c) cs

/-- `re.sub(r',\s*$', '', ·)`: drop a final comma together with the
whitespace following it. -/
def stripTrailingCommaWS (l : List Char) : List Char :=
  match l.reverse.dropWhile isSpaceChar with
  | ',' :: rest => rest.reverse
  | _ => l

/-- `re.sub(r'\s+', ' ', ·)`: every maximal whitespace run becomes one
space; `prevWS` is whether the previous character was whitespace. -/
def collapseWhitespace : Bool → List Char → List Char
  | _, [] => []
  | prevWS, c :: cs =>
    if isSpaceChar c then
      if prevWS then collapseWhitespace true cs
      else ' ' :: collapseWhitespace true cs
    else c :: collapseWhitespace false cs

/-- Python `str.strip`. -/
def stripChars (l : List Char) : List Char :=
  ((l.dropWhile isSpaceChar).reverse.dropWhile isSpaceChar).reverse

/-- `remove_unit`: strip unit designators, then the trailing comma, then
collapse and strip whitespace. -/
def remove_unit (address : String) : String :=
  if address = "" then address
  else
    ⟨stripChars (collapseWhitespace false
      (stripTrailingCommaWS (removeUnitScan 0 false address.data)))⟩

/-- `remove_secondary`: `address.split(',', 1)[0].strip()`. -/
def remove_secondary (address : String) : String :=
  if address = "" then address
  else ⟨stripChars (address.data.takeWhile (· != ','))⟩

/-- All comma split points of `l`, leftmost first: `(before, after)` pairs
with `before ++ ',' :: after = l`. -/
def commaSplits : List Char → List (List Char × List Char)
  | [] => []
  | c :: cs =>
    (if c = ',' then [(([] : List Char), cs)] else []) ++
      (commaSplits cs).map fun p => (c :: p.1, p.2)

/-- Python `$`: end of string, or just before one final newline. -/
def atEnd (l : List Char) : Bool :=
  match l with
  | [] => true
  | ['\n'] => true
  | _ => false

/-- Regex `.` (no DOTALL) cannot cross a newline. -/
def noNewline (l : List Char) : Bool := l.all (· != '\n')

/-- Tail `\d{5}(?:-\d{4})?$` of the street/city/state pattern. -/
def zipEndMatch (l : List Char) : Bool :=
  let d5 := l.take 5
  if d5.length = 5 && d5.all Char.isDigit then
    let r := l.drop 5
    if atEnd r then true
    else
      match r with
      | '-' :: r2 =>
        (r2.take 4).length = 4 && (r2.take 4).all Char.isDigit &&
          atEnd (r2.drop 4)
      | _ => false
  else false

/-- Tail `\s*([A-Z]{2})(?:\s+\d{5}(?:-\d{4})?)?$` (IGNORECASE) of the
street/city/state pattern: the matched state letters, if any.  `\s` and
letters are disjoint, so the greedy `\s*` never backtracks. -/
def scsTail (l : List Char) : Option (List Char) :=
  match l.dropWhile isSpaceChar with
  | c1 :: c2 :: rest =>
    if c1.isAlpha && c2.isAlpha then
      if atEnd rest then some [c1, c2]
      else
        if rest.takeWhile isSpaceChar != [] &&
            zipEndMatch (rest.dropWhile isSpaceChar) then
          some [c1, c2]
        else none
    else none
  | _ => none

/-- `re.match(r'(.*?),\s*(.*?),\s*([A-Z]{2})(?:\s+\d{5}(?:-\d{4})?)?$', ·,
re.IGNORECASE)`: the lazy groups scan the comma split points left to right;
a smaller `\s*` reaches the same commas and the same tails, so only the
greedy `\s*` (all following whitespace) has to be tried. -/
def scsMatch (l : List Char) : Option (List Char × List Char × List Char) :=
  (commaSplits l).findSome? fun p =>
    if noNewline p.1 then
      (commaSplits (p.2.dropWhile isSpaceChar)).findSome? fun q =>
        if noNewline q.1 then
          (scsTail q.2).map fun st => (p.1, q.1, st)
        else none
    else none

/-- `extract_street_city_state`: re-emit `"street, city, state"` on a match,
the input otherwise. -/
def extract_street_city_state (address : String) : String :=
  if address = "" then address
  else
    match scsMatch address.data with
    | some g => ⟨g.1 ++ ", ".data ++ g.2.1 ++ ", ".data ++ g.2.2⟩
    | none => address

/-- `\d{5}(?:-\d{4})?` anchored at the head of `l` (greedy optional part). -/
def zipAt (l : List Char) : Option (List Char) :=
  let d5 := l.take 5
  if d5.length = 5 && d5.all Char.isDigit then
    match l.drop 5 with
    | '-' :: r2 =>
      if (r2.take 4).length = 4 && (r2.take 4).all Char.isDigit then
        some (d5 ++ '-' :: r2.take 4)
      else some d5
    | _ => some d5
  else none

/-- `re.search(r'(\d{5}(?:-\d{4})?)', ·)`: leftmost match. -/
def zipSearch : List Char → Option (List Char)
  | [] => none
  | c :: cs =>
    match zipAt (c :: cs) with
    | some z => some z
    | none => zipSearch cs

/-- `extract_street_zip`: text before the first comma (regex `(.*?),`, so no
newline may precede that comma) and the first ZIP anywhere; both present →
`"street, zip"` with the street stripped, else the input. -/
def extract_street_zip (address : String) : String :=
  if address = "" then address
  else
    let street := address.data.takeWhile (· != ',')
    if noNewline street && street.length < address.data.length then
      match zipSearch address.data with
      | some z => ⟨stripChars street ++ ", ".data ++ z⟩
      | none => address
    else address

/-! ## Geocoding environment, metric events (`metrics.py`, `config.py`) -/

/-- Coordinates `(lat, lng)`, Python floats modelled as reals. -/
abbrev Coords := ℝ × ℝ

/-- One entry of the in-process `_metrics_to_record` buffer appended by
`record_geocoding_success` (the wall-clock timestamp is not modelled). -/
structure MetricEvent where
  variation_type : String
  success : Bool
deriving DecidableEq

/-- The external collaborators of one invocation: the cached HERE credential
(`get_here_api_key`), the geocoding provider (`geocode_address` result per
query string, `none` for non-200 / no items / no position / exception), the
routing provider (`routes[0].sections[0].summary.duration` in seconds,
`none` for any failure) and the current company
(`lambda_function.CURRENT_COMPANY`). -/
structure GeoEnv where
  apiKey : Option String
  provider : String → Option Coords
  routingSeconds : Coords → Coords → Option ℚ
  company : String

/-- `LOCKSMITH_BASE_ADDRESSES` from `config.py`. -/
def LOCKSMITH_BASE_ADDRESSES : String → Option String := fun c =>
  if c = "QuickFix" then some "1614 10th St S, Arlington, VA 22204" else none

/-- The `variations` list of `geocode_with_fuzzy_matching`, paired with the
`VARIATION_TYPES` names used for metrics. -/
def addressVariations (a : String) : List (String × String) :=
  [("original", a),
   ("normalized", normalize_address a),
   ("no_unit", remove_unit a),
   ("no_secondary", remove_secondary a),
   ("street_city_state", extract_street_city_state a),
   ("street_zip", extract_street_zip a)]

/-- The `for i, addr_variation in enumerate(variations)` loop: skip falsy
variants, query the provider, record one metric per attempt, stop at the
first success. -/
def tryVariations (env : GeoEnv) :
    List (String × String) → Option Coords × List MetricEvent
  | [] => (none, [])
  | (vt, v) :: rest =>
    if v = "" then tryVariations env rest
    else
      match env.provider v with
      | some c => (some c, [⟨vt, true⟩])
      | none =>
        let r := tryVariations env rest
        (r.1, ⟨vt, false⟩ :: r.2)

/-- `geocode_with_fuzzy_matching`: `none` with no metric for a falsy address
or a missing credential, otherwise the variant loop.  Returns the resolved
coordinates together with the metric events appended to the buffer. -/
def geocode_with_fuzzy_matching (env : GeoEnv) (a : String) :
    Option Coords × List MetricEvent :=
  if a = "" then (none, [])
  else
    match env.apiKey with
    | none => (none, [])
    | some _ => tryVariations env (addressVariations a)

/-! ## Effect traces

Every call of `geocode_with_fuzzy_matching`, the lazy `base_address`
persistence and the `NextAvailableCache` write are recorded as events, so
that call-count and frame claims can be stated. -/

/-- A `NextAvailableCache` item as built by `update_next_available_cache`
(the 5-minute TTL is wall-clock time and is not modelled). -/
structure CacheItem where
  companyName : String
  locksmithId : Option String
  travelTime : Int
  jobAddress : Option String
  latlng : Option Coords

/-- One observable side effect. -/
inductive TraceEv where
  | geoCall : Option String → TraceEv
  | metric : MetricEvent → TraceEv
  | baseWrite : Option String → String → Coords → TraceEv
  | cachePut : CacheItem → TraceEv

/-- A call site of `geocode_with_fuzzy_matching` (whose falsy check also
absorbs a `None` argument): the result plus the trace of the call. -/
def callGeocoder (env : GeoEnv) (a : Option String) :
    Option Coords × List TraceEv :=
  match a with
  | none => (none, [.geoCall none])
  | some s =>
    let r := geocode_with_fuzzy_matching env s
    (r.1, .geoCall (some s) :: r.2.map TraceEv.metric)

/-! ## `travel_time.py` -/

/-- `math.radians`. -/
noncomputable def radians (d : ℝ) : ℝ := d * Real.pi / 180

/-- `math.atan2` on the reals. -/
noncomputable def atan2 (y x : ℝ) : ℝ :=
  if 0 < x then Real.arctan (y / x)
  else if x < 0 ∧ 0 ≤ y then Real.arctan (y / x) + Real.pi
  else if x < 0 ∧ y < 0 then Real.arctan (y / x) - Real.pi
  else if x = 0 ∧ 0 < y then Real.pi / 2
  else if x = 0 ∧ y < 0 then -(Real.pi / 2)
  else 0

/-- The `a` intermediate of the haversine formula. -/
noncomputable def haversineA (o d : Coords) : ℝ :=
  Real.sin ((radians d.1 - radians o.1) / 2) ^ 2 +
    Real.cos (radians o.1) * Real.cos (radians d.1) *
      Real.sin ((radians d.2 - radians o.2) / 2) ^ 2

/-- The haversine block of `calculate_travel_time_fallback`:
`EARTH_RADIUS_KM = 6371`, `ROAD_NETWORK_MULTIPLIER = 1.4`,
`AVG_SPEED_KMH = 48.28`, minutes rounded up with `math.ceil`. -/
noncomputable def haversineMinutes (o d : Coords) : Int :=
  let a := haversineA o d
  let c := 2 * atan2 (Real.sqrt a) (Real.sqrt (1 - a))
  Int.ceil (6371 * c * (1.4 : ℝ) / (48.28 : ℝ) * 60)

/-- The part of `calculate_travel_time_fallback` after the origin
coordinates are known. -/
noncomputable def fallbackWithOrigin (env : GeoEnv) (dest_address : Option String)
    (o : Coords) (dest_coords : Option Coords) : Int × List TraceEv :=
  match dest_coords with
  | some d => (haversineMinutes o d, [])
  | none =>
    let r := callGeocoder env dest_address
    match r.1 with
    | none => (30, r.2)
    | some d => (haversineMinutes o d, r.2)

/-- `calculate_travel_time_fallback`: geocode still-missing endpoints once
more, default 30 minutes if an endpoint stays unresolved, else the
haversine estimate. -/
noncomputable def calculate_travel_time_fallback (env : GeoEnv)
    (origin_address dest_address : Option String)
    (origin_coords dest_coords : Option Coords) : Int × List TraceEv :=
  match origin_coords with
  | some o => fallbackWithOrigin env dest_address o dest_coords
  | none =>
    let r := callGeocoder env origin_address
    match r.1 with
    | none => (30, r.2)
    | some o =>
      let s := fallbackWithOrigin env dest_address o dest_coords
      (s.1, r.2 ++ s.2)

/-- The `if api_key: try HERE Routing ...` block of
`calculate_travel_time_with_coords`, with both endpoints known; any routing
failure falls through to the fallback with these coordinates. -/
noncomputable def routeOrFallback (env : GeoEnv)
    (origin_address dest_address : Option String) (o d : Coords) :
    Int × List TraceEv :=
  match env.apiKey with
  | none => calculate_travel_time_fallback env origin_address dest_address
      (some o) (some d)
  | some _ =>
    match env.routingSeconds o d with
    | some secs => (Int.ceil (secs / 60), [])
    | none => calculate_travel_time_fallback env origin_address dest_address
        (some o) (some d)

/-- `calculate_travel_time_with_coords`: use supplied coordinates, geocode
missing ones, jump to the fallback without coordinates when an endpoint
fails to geocode (the code passes only the addresses there), else the
routing primary path. -/
noncomputable def calculate_travel_time_with_coords (env : GeoEnv)
    (origin_address dest_address : Option String)
    (origin_coords dest_coords : Option Coords) : Int × List TraceEv :=
  match origin_coords with
  | none =>
    let ro := callGeocoder env origin_address
    match ro.1 with
    | none =>
      let f := calculate_travel_time_fallback env origin_address dest_address
        none none
      (f.1, ro.2 ++ f.2)
    | some o =>
      match dest_coords with
      | none =>
        let rd := callGeocoder env dest_address
        match rd.1 with
        | none =>
          let f := calculate_travel_time_fallback env origin_address
            dest_address none none
          (f.1, ro.2 ++ rd.2 ++ f.2)
        | some d =>
          let m := routeOrFallback env origin_address dest_address o d
          (m.1, ro.2 ++ rd.2 ++ m.2)
      | some d =>
        let m := routeOrFallback env origin_address dest_address o d
        (m.1, ro.2 ++ m.2)
  | some o =>
    match dest_coords with
    | none =>
      let rd := callGeocoder env dest_address
      match rd.1 with
      | none =>
        let f := calculate_travel_time_fallback env origin_address
          dest_address none none
        (f.1, rd.2 ++ f.2)
      | some d =>
        let m := routeOrFallback env origin_address dest_address o d
        (m.1, rd.2 ++ m.2)
    | some d => routeOrFallback env origin_address dest_address o d

/-! ## `dynamo_utils.py` -/

/-- The cached `base_address` field of a locksmith record. -/
structure BaseAddress where
  address : String
  coords : Option Coords

/-- One `jobQueue` entry.  `estimatedTime` and `travelTime` go through
`float(...)`; `coords` is the optional latitude/longitude field pair. -/
structure QueueJob where
  estimatedTime : ℚ
  travelTime : ℚ
  arrived : Bool
  address : Option String
  coords : Option Coords

/-- A locksmith record. -/
structure Locksmith where
  locksmithId : Option String
  jobQueue : List QueueJob
  base_address : Option BaseAddress

/-- The workload loop over the queue: estimated time of every job plus the
travel time of the jobs not yet arrived. -/
def workloadLoop (q : List QueueJob) : ℚ :=
  q.foldl
    (fun acc j => acc + j.estimatedTime + (if j.arrived then 0 else j.travelTime))
    0

/-- `calculate_locksmith_eta`.  ETA `float('inf')` is modelled as `⊤` in
`WithTop ℚ`; the result is `((eta, travel_time), trace)`. -/
noncomputable def calculate_locksmith_eta (env : GeoEnv) (lk : Locksmith)
    (new_job_address : String) (new_job_coords : Option Coords) :
    (WithTop ℚ × Int) × List TraceEv :=
  match lk.jobQueue with
  | [] =>
    match lk.base_address with
    | some b =>
      let t := calculate_travel_time_with_coords env (some b.address)
        (some new_job_address) b.coords new_job_coords
      (((((0 : ℚ) + (t.1 : ℚ) : ℚ) : WithTop ℚ), t.1), t.2)
    | none =>
      match LOCKSMITH_BASE_ADDRESSES env.company with
      | none => ((⊤, 0), [])
      | some cfg =>
        let g := callGeocoder env (some cfg)
        let wr : List TraceEv :=
          match g.1 with
          | some c => [.baseWrite lk.locksmithId cfg c]
          | none => []
        let t := calculate_travel_time_with_coords env (some cfg)
          (some new_job_address) g.1 new_job_coords
        (((((0 : ℚ) + (t.1 : ℚ) : ℚ) : WithTop ℚ), t.1), g.2 ++ wr ++ t.2)
  | j :: js =>
    let w := workloadLoop (j :: js)
    let lastJob := (j :: js).getLast (List.cons_ne_nil j js)
    let t := calculate_travel_time_with_coords env lastJob.address
      (some new_job_address) lastJob.coords new_job_coords
    ((((w + (t.1 : ℚ) : ℚ) : WithTop ℚ), t.1), t.2)

/-- `update_next_available_cache`: the attempted `put_item` as one trace
event (`int(travel_time)` is the identity on the integer minute values, the
TTL is not modelled, failure of the put is absorbed). -/
def update_next_available_cache (env : GeoEnv) (locksmith_id : Option String)
    (travel_time : Int) (new_job_coords : Option Coords)
    (new_job_address : String) : List TraceEv :=
  [.cachePut
    { companyName := env.company
      locksmithId := locksmith_id
      travelTime := travel_time
      jobAddress := if new_job_address = "" then none else some new_job_address
      latlng := new_job_coords }]

/-- The `for locksmith in locksmiths` selection loop of
`find_earliest_locksmith`: the accumulator is
`(earliest_locksmith_id, earliest_eta, earliest_travel_time)` and a
strictly smaller ETA replaces it. -/
noncomputable def dispatchLoop (env : GeoEnv) (new_job_address : String)
    (new_job_coords : Option Coords) :
    List Locksmith → Option String × WithTop ℚ × Int →
    (Option String × WithTop ℚ × Int) × List TraceEv
  | [], acc => (acc, [])
  | lk :: rest, acc =>
    let r := calculate_locksmith_eta env lk new_job_address new_job_coords
    let acc' := if r.1.1 < acc.2.1 then (lk.locksmithId, r.1.1, r.1.2) else acc
    let s := dispatchLoop env new_job_address new_job_coords rest acc'
    (s.1, r.2 ++ s.2)

/-- `find_earliest_locksmith`: empty list short-circuits (no geocoding, no
cache write); otherwise geocode the target once, run the selection loop
from `(None, inf, 0)` and attempt the cache write with the selection. -/
noncomputable def find_earliest_locksmith (env : GeoEnv)
    (locksmiths : List Locksmith) (new_job_address : String) :
    (Option String × WithTop ℚ) × List TraceEv :=
  if locksmiths.isEmpty then ((none, ⊤), [])
  else
    let g := callGeocoder env (some new_job_address)
    let r := dispatchLoop env new_job_address g.1 locksmiths (none, ⊤, 0)
    let c := update_next_available_cache env r.1.1 r.1.2.2 g.1 new_job_address
    ((r.1.1, r.1.2.1), g.2 ++ r.2 ++ c)

/-! ## Basic facts about the tokenizer -/

theorem tokenize_flatten (l : List Char) : (tokenize l).flatten = l := by
  induction l with
  | nil => rfl
  | cons c cs ih =>
    rw [tokenize]
    rcases h : tokenize cs with _ | ⟨t, ts⟩
    · rw [h] at ih
      simp at ih
      simp [ih]
    · rcases t with _ | ⟨d, t⟩
      · rw [h] at ih
        simpa using ih
      · rw [h] at ih
        by_cases hc : isWordChar c = isWordChar d


        · simp only [if_pos hc, List.flatten_cons] at *
          simp [ih]
        · simp only [if_neg hc, List.flatten_cons] at *
          simp [ih]

theorem tokenize_head_shape (c : Char) (cs : List Char) :
    ∃ t ts, tokenize (c :: cs) = (c :: t) :: ts := by
  rw [tokenize]
  rcases tokenize cs with _ | ⟨_ | ⟨d, t⟩, ts⟩
  · exact ⟨[], [], rfl⟩
  · exact ⟨[], [] :: ts, rfl⟩
  · by_cases hc : isWordChar c = isWordChar d
    · exact ⟨d :: t, ts, by simp [hc]⟩
    · exact ⟨[], (d :: t) :: ts, by simp [hc]⟩

theorem substWord_ne_nil (pat rep l : List Char) (hl : l ≠ [])
    (hr : rep ≠ []) : substWord pat rep l ≠ [] := by
  rcases l with _ | ⟨c, cs⟩
  · exact absurd rfl hl
  · obtain ⟨t, ts, h⟩ := tokenize_head_shape c cs
    rw [substWord, h]
    simp only [List.map_cons, List.flatten_cons]
    intro hcontra
    rcases List.append_eq_nil.mp hcontra with ⟨h1, -⟩
    by_cases he : c :: t = pat
    · rw [if_pos he] at h1
      exact hr h1
    · rw [if_neg he] at h1
      exact List.cons_ne_nil c t h1

theorem titleChars_length (b : Bool) (l : List Char) :
    (titleChars b l).length = l.length := by
  induction l generalizing b with
  | nil => rfl
  | cons c cs ih =>
    rw [titleChars]
    by_cases h : c.isAlpha
    · simp [h, ih]
    · simp [h, ih]

theorem string_ne_empty_iff (s : String) : s ≠ "" ↔ s.data ≠ [] := by
  rw [ne_eq, String.ext_iff]

theorem titleChars_ne_nil (b : Bool) (l : List Char) (h : l ≠ []) :
    titleChars b l ≠ [] := by
  rcases l with _ | ⟨c, cs⟩
  · exact absurd rfl h
  · rw [titleChars]
    by_cases hc : c.isAlpha
    · simp [hc]
    · simp [hc]

theorem foldl_substWord_ne_nil (ps : List (String × String)) (l : List Char)
    (hl : l ≠ []) (hps : ∀ p ∈ ps, p.2.data ≠ []) :
    ps.foldl (fun a p => substWord p.1.data p.2.data a) l ≠ [] := by
  induction ps generalizing l with
  | nil => simpa
  | cons p ps ih =>
    rw [List.foldl_cons]
    exact ih (substWord p.1.data p.2.data l)
      (substWord_ne_nil _ _ _ hl (hps p (by simp)))
      (fun q hq => hps q (by simp [hq]))

theorem normalize_address_ne_empty (a : String) (h : a ≠ "") :
    normalize_address a ≠ "" := by
  rw [normalize_address, if_neg h, string_ne_empty_iff]
  apply titleChars_ne_nil
  apply foldl_substWord_ne_nil
  · rw [string_ne_empty_iff] at h
    simpa [upperChars]
  · decide

/-! ## Claims -/

/-- **C5** (counterexample).  The claimed trio of outputs on
`"123 Main Street Apt 4B, Springfield, VA 22150"` is not what the code
computes: `str.title` uppercases the `B` of `4B` (a letter after a digit
starts a new title word) and `remove_unit` leaves the space that preceded
`"Apt 4B"` in front of the comma. -/
theorem c5_counterexample :
    ¬ (normalize_address "123 Main Street Apt 4B, Springfield, VA 22150"
          = "123 Main St Apt 4b, Springfield, Va 22150"
        ∧ remove_unit "123 Main Street Apt 4B, Springfield, VA 22150"
          = "123 Main Street, Springfield, VA 22150"
        ∧ extract_street_zip "123 Main Street Apt 4B, Springfield, VA 22150"
          = "123 Main Street Apt 4B, 22150") := by
  decide

/-- **C5** (amended).  On `"123 Main Street Apt 4B, Springfield, VA 22150"`
the Normalized transform returns `"123 Main St Apt 4B, Springfield, Va
22150"` (capital `B`), the NoUnit transform returns `"123 Main Street ,
Springfield, VA 22150"` (with the space before the comma kept), and the
StreetZip transform returns `"123 Main Street Apt 4B, 22150"`. -/
theorem c5_amended :
    normalize_address "123 Main Street Apt 4B, Springfield, VA 22150"
        = "123 Main St Apt 4B, Springfield, Va 22150"
      ∧ remove_unit "123 Main Street Apt 4B, Springfield, VA 22150"
        = "123 Main Street , Springfield, VA 22150"
      ∧ extract_street_zip "123 Main Street Apt 4B, Springfield, VA 22150"
        = "123 Main Street Apt 4B, 22150" := by
  refine ⟨by decide, by decide, by decide⟩

/-- **C10**.  An empty/missing address or a missing credential makes
`geocode_with_fuzzy_matching` return `NotFound` before the variant loop, so
no metric event is appended to the in-process buffer. -/
theorem c10_no_metrics (env : GeoEnv) (a : String)
    (h : a = "" ∨ env.apiKey = none) :
    geocode_with_fuzzy_matching env a = (none, []) := by
  rcases h with h | h
  · rw [geocode_with_fuzzy_matching, if_pos h]
  · rw [geocode_with_fuzzy_matching]
    by_cases ha : a = ""
    · rw [if_pos ha]
    · rw [if_neg ha, h]

/-- An environment with no credential available. -/
def envNoKey : GeoEnv :=
  { apiKey := none
    provider := fun _ => none
    routingSeconds := fun _ _ => none
    company := "QuickFix" }

/-- Witness for C10 at a concrete input. -/
theorem c10_witness :
    ("1600 Penn Ave" = "" ∨ envNoKey.apiKey = none)
      ∧ geocode_with_fuzzy_matching envNoKey "1600 Penn Ave" = (none, []) :=
  ⟨Or.inr rfl, c10_no_metrics envNoKey "1600 Penn Ave" (Or.inr rfl)⟩

/-- **C4**.  With a credential present, a provider failing the Original and
Normalized variants and succeeding on NoUnit: the loop tries the variants
in declared order, returns the NoUnit coordinates immediately, and exactly
three metric events are recorded — two failures and one success, each
tagged with its variant type. -/
theorem c4_variant_order (env : GeoEnv) (a : String) (c : Coords)
    (ha : a ≠ "") (hk : env.apiKey.isSome = true)
    (h1 : env.provider a = none)
    (h2 : env.provider (normalize_address a) = none)
    (h3 : remove_unit a ≠ "")
    (h4 : env.provider (remove_unit a) = some c) :
    geocode_with_fuzzy_matching env a
      = (some c,
         [⟨"original", false⟩, ⟨"normalized", false⟩, ⟨"no_unit", true⟩]) := by
  obtain ⟨k, hk⟩ := Option.isSome_iff_exists.mp hk
  rw [geocode_with_fuzzy_matching, if_neg ha, hk, addressVariations]
  rw [tryVariations, if_neg ha, h1]
  rw [tryVariations, if_neg (normalize_address_ne_empty a ha), h2]
  rw [tryVariations, if_neg h3, h4]

/-- An environment whose provider resolves only the NoUnit variant of the
C5 address. -/
def envNoUnitOnly : GeoEnv :=
  { apiKey := some "key"
    provider := fun s =>
      if s = "123 Main Street , Springfield, VA 22150" then some (0, 0)
      else none
    routingSeconds := fun _ _ => none
    company := "QuickFix" }

/-- Witness for C4 at a concrete input. -/
theorem c4_witness :
    ("123 Main Street Apt 4B, Springfield, VA 22150" ≠ ""
        ∧ envNoUnitOnly.provider "123 Main Street Apt 4B, Springfield, VA 22150"
            = none
        ∧ envNoUnitOnly.provider
            (remove_unit "123 Main Street Apt 4B, Springfield, VA 22150")
            = some (0, 0))
      ∧ geocode_with_fuzzy_matching envNoUnitOnly
          "123 Main Street Apt 4B, Springfield, VA 22150"
        = (some (0, 0),
           [⟨"original", false⟩, ⟨"normalized", false⟩, ⟨"no_unit", true⟩]) :=
  ⟨⟨by decide, rfl, rfl⟩,
    c4_variant_order envNoUnitOnly
      "123 Main Street Apt 4B, Springfield, VA 22150" (0, 0)
      (by decide) rfl rfl rfl (by decide) rfl⟩

theorem haversineA_symm (p q : Coords) : haversineA p q = haversineA q p := by
  rw [haversineA, haversineA]
  have h1 : (radians p.1 - radians q.1) / 2 = -((radians q.1 - radians p.1) / 2) := by
    ring
  have h2 : (radians p.2 - radians q.2) / 2 = -((radians q.2 - radians p.2) / 2) := by
    ring
  rw [h1, h2, Real.sin_neg, Real.sin_neg]
  ring

theorem haversineMinutes_symm (p q : Coords) :
    haversineMinutes p q = haversineMinutes q p := by
  rw [haversineMinutes, haversineMinutes, haversineA_symm]

/-- **C9**.  With both coordinate pairs supplied, the geometric fallback
estimate is symmetric in its endpoints. -/
theorem c9_fallback_symm (env : GeoEnv) (oa da : Option String)
    (A B : Coords) :
    (calculate_travel_time_fallback env oa da (some A) (some B)).1
      = (calculate_travel_time_fallback env da oa (some B) (some A)).1 := by
  rw [calculate_travel_time_fallback, calculate_travel_time_fallback,
    fallbackWithOrigin, fallbackWithOrigin]
  exact haversineMinutes_symm A B

/-- The shared result of a `geocode_with_fuzzy_matching` call site. -/
def fuzzyRes (env : GeoEnv) (a : Option String) : Option Coords :=
  (callGeocoder env a).1

theorem fallback_none_none_of_origin (env : GeoEnv) (oa da : Option String)
    (h : fuzzyRes env oa = none) :
    (calculate_travel_time_fallback env oa da none none).1 = 30 := by
  rw [calculate_travel_time_fallback]
  rw [fuzzyRes] at h
  simp only [h]

theorem fallback_none_none_of_dest (env : GeoEnv) (oa da : Option String)
    (h : fuzzyRes env da = none) :
    (calculate_travel_time_fallback env oa da none none).1 = 30 := by
  rw [calculate_travel_time_fallback]
  rw [fuzzyRes] at h
  rcases ho : (callGeocoder env oa).1 with _ | o
  · simp only [ho]
  · simp only [ho, fallbackWithOrigin, h]

/-- **C7**.  If an endpoint has no supplied coordinates and the geocoder
cannot resolve its address (so the fallback's one extra geocode attempt per
missing endpoint also fails, the geocoder being a function of the address),
the travel estimator returns exactly the 30-minute default.  (The estimator
itself is total by construction and always yields an integer number of
minutes: exceptions of the primary path are absorbed into the fallback.) -/
theorem c7_default_30 (env : GeoEnv) (oa da : Option String)
    (oc dc : Option Coords)
    (h : (oc = none ∧ fuzzyRes env oa = none)
        ∨ (dc = none ∧ fuzzyRes env da = none)) :
    (calculate_travel_time_with_coords env oa da oc dc).1 = 30 := by
  rcases h with ⟨hoc, ho⟩ | ⟨hdc, hd⟩
  · subst hoc
    rw [calculate_travel_time_with_coords]
    rw [fuzzyRes] at ho
    simp only [ho]
    exact fallback_none_none_of_origin env oa da (by rw [fuzzyRes]; exact ho)
  · subst hdc
    rcases oc with _ | o
    · rw [calculate_travel_time_with_coords]
      rcases ho : (callGeocoder env oa).1 with _ | o
      · simp only [ho]
        exact fallback_none_none_of_dest env oa da hd
      · rw [fuzzyRes] at hd
        simp only [ho, hd]
        exact fallback_none_none_of_dest env oa da (by rw [fuzzyRes]; exact hd)
    · rw [calculate_travel_time_with_coords]
      rw [fuzzyRes] at hd
      simp only [hd]
      exact fallback_none_none_of_dest env oa da (by rw [fuzzyRes]; exact hd)

/-- Witness for C7 at a concrete input. -/
theorem c7_witness :
    ((none : Option Coords) = none ∧ fuzzyRes envNoKey (some "1 A St") = none)
      ∧ (calculate_travel_time_with_coords envNoKey (some "1 A St")
          (some "2 B St") none none).1 = 30 :=
  ⟨⟨rfl, rfl⟩,
    c7_default_30 envNoKey (some "1 A St") (some "2 B St") none none
      (Or.inl ⟨rfl, rfl⟩)⟩

/-- The workload formula as the spec states it: the sum over all queued
jobs of the estimated on-site duration, plus the travel time of exactly the
jobs not marked arrived. -/
def specWorkload (q : List QueueJob) : ℚ :=
  (q.map QueueJob.estimatedTime).sum
    + ((q.filter fun j => !j.arrived).map QueueJob.travelTime).sum

theorem workloadLoop_foldl (q : List QueueJob) (acc : ℚ) :
    q.foldl
      (fun acc j =>
        acc + j.estimatedTime + (if j.arrived then 0 else j.travelTime))
      acc = acc + specWorkload q := by
  induction q generalizing acc with
  | nil => simp [specWorkload]
  | cons j js ih =>
    rw [List.foldl_cons, ih, specWorkload, specWorkload]
    by_cases ha : j.arrived
    · simp only [ha, if_true, List.map_cons, List.sum_cons, List.filter_cons,
        Bool.not_true]
      simp
      ring
    · simp only [ha, if_false, List.map_cons, List.sum_cons, List.filter_cons,
        Bool.not_false]
      have : (!j.arrived) = true := by simp [ha]
      simp only [eq_self_iff_true, if_true, this]
      simp
      ring

theorem workloadLoop_eq_spec (q : List QueueJob) :
    workloadLoop q = specWorkload q := by
  rw [workloadLoop, workloadLoop_foldl]
  ring

/-- **C2**.  For a technician with a non-empty queue, the ETA is the spec
workload (all estimated durations plus the travel times of the non-arrived
jobs) plus the travel estimate from the last queued job's location to the
target, and the returned travel component is that estimate. -/
theorem c2_workload (env : GeoEnv) (lk : Locksmith) (target : String)
    (tc : Option Coords) (h : lk.jobQueue ≠ []) :
    (calculate_locksmith_eta env lk target tc).1
      = ((((specWorkload lk.jobQueue +
            ((calculate_travel_time_with_coords env
              (lk.jobQueue.getLast h).address (some target)
              (lk.jobQueue.getLast h).coords tc).1 : ℚ) : ℚ) : WithTop ℚ),
          (calculate_travel_time_with_coords env
            (lk.jobQueue.getLast h).address (some target)
            (lk.jobQueue.getLast h).coords tc).1)) := by
  rcases lk with ⟨id, q, b⟩
  rcases q with _ | ⟨j, js⟩
  · exact absurd rfl h
  · rw [calculate_locksmith_eta]
    dsimp only
    rw [workloadLoop_eq_spec]

/-- A queue of one arrived job (travelTime 10, estimatedTime 20) and one
pending job (travelTime 5, estimatedTime 15), as in the C2 scenario. -/
def lkC2 : Locksmith :=
  { locksmithId := some "L1"
    jobQueue :=
      [{ estimatedTime := 20, travelTime := 10, arrived := true,
         address := none, coords := none },
       { estimatedTime := 15, travelTime := 5, arrived := false,
         address := none, coords := none }]
    base_address := none }

/-- Witness for C2: the scenario queue yields workload 40, and with both
geocodes failing the travel default 30 gives ETA 70. -/
theorem c2_witness :
    lkC2.jobQueue ≠ [] ∧ specWorkload lkC2.jobQueue = 40
      ∧ (calculate_locksmith_eta envNoKey lkC2 "9 Z St" none).1
          = (((70 : ℚ) : WithTop ℚ), 30) := by
  refine ⟨List.cons_ne_nil _ _, ?_, ?_⟩
  · norm_num [specWorkload, lkC2]
  · rw [c2_workload envNoKey lkC2 "9 Z St" none (List.cons_ne_nil _ _)]
    have ht :
        (calculate_travel_time_with_coords envNoKey none (some "9 Z St")
          none none).1 = 30 := rfl
    have hw : specWorkload lkC2.jobQueue = 40 := by
      norm_num [specWorkload, lkC2]
    rw [show (lkC2.jobQueue.getLast (List.cons_ne_nil _ _)).address = none
        from rfl,
      show (lkC2.jobQueue.getLast (List.cons_ne_nil _ _)).coords = none
        from rfl, ht, hw]
    norm_num

/-- **C3**.  Empty queue: with a cached base location the result is the
travel estimate from it (workload 0, so the ETA is the travel estimate
alone); with no cached base but a configured company base address, the
result is the travel estimate from that address with the coordinates the
geocoder returned for it; with neither, the result is `(∞, 0)`. -/
theorem c3_empty_queue (env : GeoEnv) (lk : Locksmith) (target : String)
    (tc : Option Coords) (hq : lk.jobQueue = []) :
    (∀ b, lk.base_address = some b →
      (calculate_locksmith_eta env lk target tc).1
        = ((((calculate_travel_time_with_coords env (some b.address)
              (some target) b.coords tc).1 : ℚ) : WithTop ℚ),
          (calculate_travel_time_with_coords env (some b.address)
            (some target) b.coords tc).1))
    ∧ (lk.base_address = none →
        ∀ cfg, LOCKSMITH_BASE_ADDRESSES env.company = some cfg →
        (calculate_locksmith_eta env lk target tc).1
          = ((((calculate_travel_time_with_coords env (some cfg)
                (some target) (fuzzyRes env (some cfg)) tc).1 : ℚ) : WithTop ℚ),
            (calculate_travel_time_with_coords env (some cfg)
              (some target) (fuzzyRes env (some cfg)) tc).1))
    ∧ (lk.base_address = none → LOCKSMITH_BASE_ADDRESSES env.company = none →
        (calculate_locksmith_eta env lk target tc).1 = (⊤, 0)) := by
  rcases lk with ⟨id, q, b⟩
  simp only at hq
  subst hq
  refine ⟨?_, ?_, ?_⟩
  · intro bb hb
    simp only at hb
    subst hb
    rw [calculate_locksmith_eta]
    dsimp only
    rw [zero_add]
  · intro hb cfg hcfg
    simp only at hb
    subst hb
    rw [calculate_locksmith_eta]
    dsimp only
    simp only [hcfg]
    rw [zero_add]
    rfl
  · intro hb hcfg
    simp only at hb
    subst hb
    rw [calculate_locksmith_eta]
    dsimp only
    simp only [hcfg]

/-- An idle technician whose base address is cached with coordinates. -/
def lkC3 : Locksmith :=
  { locksmithId := some "L2"
    jobQueue := []
    base_address := some { address := "Depot Rd", coords := some (1, 2) } }

/-- Witness for C3 at a concrete input (cached base location). -/
theorem c3_witness :
    lkC3.jobQueue = []
      ∧ (calculate_locksmith_eta envNoKey lkC3 "7 Q St" none).1
          = ((((calculate_travel_time_with_coords envNoKey (some "Depot Rd")
                (some "7 Q St") (some ((1 : ℝ), (2 : ℝ))) none).1 : ℚ) : WithTop ℚ),
            (calculate_travel_time_with_coords envNoKey (some "Depot Rd")
              (some "7 Q St") (some ((1 : ℝ), (2 : ℝ))) none).1) :=
  ⟨rfl,
    (c3_empty_queue envNoKey lkC3 "7 Q St" none rfl).1
      { address := "Depot Rd", coords := some (1, 2) } rfl⟩

/-! ## Trace projections -/

/-- Extractor for cache-write events. -/
def evCache : TraceEv → Option CacheItem
  | .cachePut it => some it
  | _ => none

/-- The cache writes attempted in a trace. -/
def cachePuts (tr : List TraceEv) : List CacheItem := tr.filterMap evCache

/-- Extractor for geocoder invocations. -/
def evGeo : TraceEv → Option (Option String)
  | .geoCall a => some a
  | _ => none

/-- The arguments of the `geocode_with_fuzzy_matching` calls in a trace, in
order. -/
def geoCallArgs (tr : List TraceEv) : List (Option String) :=
  tr.filterMap evGeo

theorem cachePuts_append (l1 l2 : List TraceEv) :
    cachePuts (l1 ++ l2) = cachePuts l1 ++ cachePuts l2 := by
  rw [cachePuts, cachePuts, cachePuts, List.filterMap_append]

theorem geoCallArgs_append (l1 l2 : List TraceEv) :
    geoCallArgs (l1 ++ l2) = geoCallArgs l1 ++ geoCallArgs l2 := by
  rw [geoCallArgs, geoCallArgs, geoCallArgs, List.filterMap_append]

theorem cachePuts_map_metric (ms : List MetricEvent) :
    cachePuts (ms.map TraceEv.metric) = [] := by
  induction ms with
  | nil => rfl
  | cons m ms ih =>
    rw [List.map_cons, cachePuts, List.filterMap_cons]
    exact ih

theorem geoCallArgs_map_metric (ms : List MetricEvent) :
    geoCallArgs (ms.map TraceEv.metric) = [] := by
  induction ms with
  | nil => rfl
  | cons m ms ih =>
    rw [List.map_cons, geoCallArgs, List.filterMap_cons]
    exact ih

theorem cachePuts_callGeocoder (env : GeoEnv) (a : Option String) :
    cachePuts (callGeocoder env a).2 = [] := by
  rcases a with _ | s
  · rfl
  · rw [callGeocoder]
    dsimp only
    rw [cachePuts, List.filterMap_cons]
    exact cachePuts_map_metric _

theorem geoCallArgs_callGeocoder (env : GeoEnv) (a : Option String) :
    geoCallArgs (callGeocoder env a).2 = [a] := by
  rcases a with _ | s
  · rfl
  · rw [callGeocoder]
    dsimp only
    rw [geoCallArgs, List.filterMap_cons]
    dsimp only [evGeo]
    rw [← geoCallArgs, geoCallArgs_map_metric]

theorem cachePuts_fallbackWithOrigin (env : GeoEnv) (da : Option String)
    (o : Coords) (dc : Option Coords) :
    cachePuts (fallbackWithOrigin env da o dc).2 = [] := by
  rcases dc with _ | d
  · rw [fallbackWithOrigin]
    rcases h : (callGeocoder env da).1 with _ | d
    · simp only [h]
      exact cachePuts_callGeocoder env da
    · simp only [h]
      exact cachePuts_callGeocoder env da
  · rfl

theorem cachePuts_fallback (env : GeoEnv) (oa da : Option String)
    (oc dc : Option Coords) :
    cachePuts (calculate_travel_time_fallback env oa da oc dc).2 = [] := by
  rcases oc with _ | o
  · rw [calculate_travel_time_fallback]
    dsimp only
    rcases h : (callGeocoder env oa).1 with _ | o
    · simp only [h]
      exact cachePuts_callGeocoder env oa
    · simp only [h]
      rw [cachePuts_append, cachePuts_callGeocoder, cachePuts_fallbackWithOrigin]
      rfl
  · exact cachePuts_fallbackWithOrigin env da o dc

theorem cachePuts_routeOrFallback (env : GeoEnv) (oa da : Option String)
    (o d : Coords) :
    cachePuts (routeOrFallback env oa da o d).2 = [] := by
  rw [routeOrFallback]
  rcases env.apiKey with _ | k
  · exact cachePuts_fallback env oa da (some o) (some d)
  · dsimp only
    rcases env.routingSeconds o d with _ | secs
    · exact cachePuts_fallback env oa da (some o) (some d)
    · rfl

theorem cachePuts_travel (env : GeoEnv) (oa da : Option String)
    (oc dc : Option Coords) :
    cachePuts (calculate_travel_time_with_coords env oa da oc dc).2 = [] := by
  rcases oc with _ | o
  · rw [calculate_travel_time_with_coords]
    dsimp only
    rcases ho : (callGeocoder env oa).1 with _ | o
    · simp only [ho]
      rw [cachePuts_append, cachePuts_callGeocoder, cachePuts_fallback]
      rfl
    · simp only [ho]
      rcases dc with _ | d
      · dsimp only
        rcases hd : (callGeocoder env da).1 with _ | d
        · simp only [hd]
          rw [cachePuts_append, cachePuts_append, cachePuts_callGeocoder,
            cachePuts_callGeocoder, cachePuts_fallback]
          rfl
        · simp only [hd]
          rw [cachePuts_append, cachePuts_append, cachePuts_callGeocoder,
            cachePuts_callGeocoder, cachePuts_routeOrFallback]
          rfl
      · rw [cachePuts_append, cachePuts_callGeocoder, cachePuts_routeOrFallback]
        rfl
  · rcases dc with _ | d
    · rw [calculate_travel_time_with_coords]
      dsimp only
      rcases hd : (callGeocoder env da).1 with _ | d
      · simp only [hd]
        rw [cachePuts_append, cachePuts_callGeocoder, cachePuts_fallback]
        rfl
      · simp only [hd]
        rw [cachePuts_append, cachePuts_callGeocoder, cachePuts_routeOrFallback]
        rfl
    · exact cachePuts_routeOrFallback env oa da o d

theorem cachePuts_calcEta (env : GeoEnv) (lk : Locksmith) (target : String)
    (tc : Option Coords) :
    cachePuts (calculate_locksmith_eta env lk target tc).2 = [] := by
  rcases lk with ⟨id, q, b⟩
  rcases q with _ | ⟨j, js⟩
  · rcases b with _ | bb
    · rw [calculate_locksmith_eta]
      dsimp only
      rcases LOCKSMITH_BASE_ADDRESSES env.company with _ | cfg
      · rfl
      · dsimp only
        rw [cachePuts_append, cachePuts_append, cachePuts_callGeocoder,
          cachePuts_travel]
        rcases (callGeocoder env (some cfg)).1 with _ | c
        · rfl
        · rfl
    · rw [calculate_locksmith_eta]
      dsimp only
      exact cachePuts_travel env _ _ _ _
  · rw [calculate_locksmith_eta]
    dsimp only
    exact cachePuts_travel env _ _ _ _

theorem cachePuts_dispatchLoop (env : GeoEnv) (target : String)
    (tc : Option Coords) (xs : List Locksmith)
    (acc : Option String × WithTop ℚ × Int) :
    cachePuts (dispatchLoop env target tc xs acc).2 = [] := by
  induction xs generalizing acc with
  | nil => rfl
  | cons x xs ih =>
    rw [dispatchLoop]
    dsimp only
    rw [cachePuts_append, cachePuts_calcEta, ih]
    rfl

/-! ## The selection fold of the Dispatcher -/

/-- The ETA the Availability Calculator assigns to one technician. -/
noncomputable def lockEta (env : GeoEnv) (target : String)
    (tc : Option Coords) (lk : Locksmith) : WithTop ℚ :=
  (calculate_locksmith_eta env lk target tc).1.1

/-- The travel component the Availability Calculator assigns. -/
noncomputable def lockTravel (env : GeoEnv) (target : String)
    (tc : Option Coords) (lk : Locksmith) : Int :=
  (calculate_locksmith_eta env lk target tc).1.2

/-- The minimum ETA over a technician list (`⊤` for the empty list). -/
noncomputable def minEta (env : GeoEnv) (target : String)
    (tc : Option Coords) (ls : List Locksmith) : WithTop ℚ :=
  (ls.map (lockEta env target tc)).foldr min ⊤

theorem minEta_nil (env : GeoEnv) (target : String) (tc : Option Coords) :
    minEta env target tc [] = ⊤ := rfl

theorem minEta_cons (env : GeoEnv) (target : String) (tc : Option Coords)
    (x : Locksmith) (xs : List Locksmith) :
    minEta env target tc (x :: xs)
      = min (lockEta env target tc x) (minEta env target tc xs) := rfl

/-- Invariant of the selection loop: the final best ETA is the minimum of
the accumulator's and the list's; when some list ETA beats the accumulator,
the selected entry is the first one attaining the list minimum; otherwise
the accumulator survives unchanged. -/
theorem dispatchLoop_spec (env : GeoEnv) (target : String)
    (tc : Option Coords) (xs : List Locksmith) :
    ∀ (accId : Option String) (accEta : WithTop ℚ) (accTr : Int),
    ((dispatchLoop env target tc xs (accId, accEta, accTr)).1.2.1
        = min accEta (minEta env target tc xs))
    ∧ (minEta env target tc xs < accEta →
        ∃ lk, xs.find?
            (fun x => decide (lockEta env target tc x = minEta env target tc xs))
              = some lk
          ∧ (dispatchLoop env target tc xs (accId, accEta, accTr)).1
              = (lk.locksmithId, minEta env target tc xs,
                 lockTravel env target tc lk))
    ∧ (¬ minEta env target tc xs < accEta →
        (dispatchLoop env target tc xs (accId, accEta, accTr)).1
          = (accId, accEta, accTr)) := by
  induction xs with
  | nil =>
    intro accId accEta accTr
    refine ⟨?_, ?_, fun _ => rfl⟩
    · rw [minEta_nil, min_eq_left le_top]
      rfl
    · intro hlt
      rw [minEta_nil] at hlt
      exact absurd hlt not_top_lt
  | cons x xs ih =>
    intro accId accEta accTr
    rw [dispatchLoop]
    dsimp only
    rw [minEta_cons]
    rw [show (calculate_locksmith_eta env x target tc).1.1
        = lockEta env target tc x from rfl]
    rw [show (calculate_locksmith_eta env x target tc).1.2
        = lockTravel env target tc x from rfl]
    by_cases hx : lockEta env target tc x < accEta
    · rw [if_pos hx]
      refine ⟨?_, ?_, ?_⟩
      · rw [(ih x.locksmithId (lockEta env target tc x)
            (lockTravel env target tc x)).1]
        rw [← min_assoc, min_eq_right (le_of_lt hx)]
      · intro hm
        rcases le_or_lt (lockEta env target tc x) (minEta env target tc xs)
          with hxm | hxm
        · rw [min_eq_left hxm] at hm ⊢
          refine ⟨x, ?_, ?_⟩
          · rw [List.find?_cons_of_pos _ (by simp)]
          · rw [(ih x.locksmithId (lockEta env target tc x)
                (lockTravel env target tc x)).2.2 (not_lt.mpr hxm)]
        · rw [min_eq_right (le_of_lt hxm)] at hm ⊢
          obtain ⟨lk, hfind, hres⟩ :=
            (ih x.locksmithId (lockEta env target tc x)
              (lockTravel env target tc x)).2.1 hxm
          refine ⟨lk, ?_, hres⟩
          rw [List.find?_cons_of_neg _ (by simp [ne_of_gt hxm])]
          exact hfind
      · intro hm
        exact absurd (lt_of_le_of_lt (min_le_left _ _) hx) hm
    · rw [if_neg hx]
      have hax : accEta ≤ lockEta env target tc x := not_lt.mp hx
      refine ⟨?_, ?_, ?_⟩
      · rw [(ih accId accEta accTr).1, ← min_assoc, min_eq_left hax]
      · intro hm
        have hmx : minEta env target tc xs < accEta := by
          rcases min_cases (lockEta env target tc x) (minEta env target tc xs)
            with ⟨he, -⟩ | ⟨he, -⟩
          · rw [he] at hm
            exact absurd hm (not_lt.mpr hax)
          · rw [he] at hm
            exact hm
        have hmin : min (lockEta env target tc x) (minEta env target tc xs)
            = minEta env target tc xs := by
          apply min_eq_right
          exact le_of_lt (lt_of_lt_of_le hmx hax)
        rw [hmin] at hm ⊢
        obtain ⟨lk, hfind, hres⟩ := (ih accId accEta accTr).2.1 hmx
        refine ⟨lk, ?_, hres⟩
        have hxne : ¬ lockEta env target tc x = minEta env target tc xs := by
          intro he
          rw [he] at hax
          exact absurd (lt_of_lt_of_le hmx hax) (lt_irrefl _)
        rw [List.find?_cons_of_neg _ (by simp [hxne])]
        exact hfind
      · intro hm
        have hmx : ¬ minEta env target tc xs < accEta := by
          intro hlt
          exact hm (lt_of_le_of_lt (min_le_right _ _) hlt)
        exact (ih accId accEta accTr).2.2 hmx

theorem minEta_eq_top (env : GeoEnv) (target : String) (tc : Option Coords)
    (ls : List Locksmith) :
    minEta env target tc ls = ⊤ ↔ ∀ lk ∈ ls, lockEta env target tc lk = ⊤ := by
  induction ls with
  | nil => simp [minEta_nil]
  | cons x xs ih =>
    rw [minEta_cons, min_eq_top]
    simp [ih]

/-- **C1**.  For a non-empty technician list: the returned ETA is the
minimum ETA; if every technician's ETA is infinite the returned identifier
is `None` and the cache write is still attempted with the null identifier
and travel time 0; otherwise the returned identifier belongs to the first
technician attaining the minimum (strict improvement during the scan, so
ties keep the first encountered) and the cache write is attempted with that
identifier and its travel component. -/
theorem c1_select_min (env : GeoEnv) (ls : List Locksmith) (target : String)
    (h : ls ≠ []) :
    ((find_earliest_locksmith env ls target).1.2
        = minEta env target (fuzzyRes env (some target)) ls)
    ∧ ((∀ lk ∈ ls, lockEta env target (fuzzyRes env (some target)) lk = ⊤) →
        (find_earliest_locksmith env ls target).1.1 = none
          ∧ cachePuts (find_earliest_locksmith env ls target).2
              = [{ companyName := env.company, locksmithId := none,
                   travelTime := 0,
                   jobAddress := if target = "" then none else some target,
                   latlng := fuzzyRes env (some target) }])
    ∧ (minEta env target (fuzzyRes env (some target)) ls ≠ ⊤ →
        ∃ lk, ls.find? (fun x =>
              decide (lockEta env target (fuzzyRes env (some target)) x
                = minEta env target (fuzzyRes env (some target)) ls))
              = some lk
          ∧ (find_earliest_locksmith env ls target).1.1 = lk.locksmithId
          ∧ cachePuts (find_earliest_locksmith env ls target).2
              = [{ companyName := env.company,
                   locksmithId := lk.locksmithId,
                   travelTime :=
                     lockTravel env target (fuzzyRes env (some target)) lk,
                   jobAddress := if target = "" then none else some target,
                   latlng := fuzzyRes env (some target) }]) := by
  rcases ls with _ | ⟨y, ys⟩
  · exact absurd rfl h
  rw [find_earliest_locksmith, if_neg (by simp)]
  dsimp only
  rw [show (callGeocoder env (some target)).1 = fuzzyRes env (some target)
      from rfl]
  have hloop := dispatchLoop_spec env target (fuzzyRes env (some target))
    (y :: ys) none ⊤ 0
  refine ⟨?_, ?_, ?_⟩
  · rw [hloop.1, min_eq_right le_top]
  · intro hall
    have htop : minEta env target (fuzzyRes env (some target)) (y :: ys) = ⊤ :=
      (minEta_eq_top env target (fuzzyRes env (some target)) (y :: ys)).mpr hall
    have hres := hloop.2.2 (by rw [htop]; exact lt_irrefl ⊤)
    rw [hres]
    refine ⟨rfl, ?_⟩
    rw [cachePuts_append, cachePuts_append, cachePuts_callGeocoder,
      cachePuts_dispatchLoop]
    rfl
  · intro hne
    obtain ⟨lk, hfind, hres⟩ :=
      hloop.2.1 (lt_top_iff_ne_top.mpr hne)
    refine ⟨lk, hfind, ?_, ?_⟩
    · rw [hres]
    · rw [hres, cachePuts_append, cachePuts_append, cachePuts_callGeocoder,
        cachePuts_dispatchLoop]
      rfl

/-- Witness for C1 at a concrete input (one technician with a finite ETA). -/
theorem c1_witness :
    (([lkC2] : List Locksmith) ≠ [])
      ∧ (find_earliest_locksmith envNoKey [lkC2] "9 Z St").1.2
          = minEta envNoKey "9 Z St" (fuzzyRes envNoKey (some "9 Z St")) [lkC2] :=
  ⟨List.cons_ne_nil _ _,
    (c1_select_min envNoKey [lkC2] "9 Z St" (List.cons_ne_nil _ _)).1⟩

/-! ## Geocoder call arguments during one dispatch -/

/-- The address whose geocoding a technician's evaluation may trigger: the
cached base address, the configured company base address, or the last
queued job's address. -/
def originArg (env : GeoEnv) (lk : Locksmith) : Option String :=
  match lk.jobQueue with
  | [] =>
    match lk.base_address with
    | some b => some b.address
    | none => LOCKSMITH_BASE_ADDRESSES env.company
  | j :: js => ((j :: js).getLast (List.cons_ne_nil j js)).address

theorem geoCallArgs_cachePut (it : CacheItem) :
    geoCallArgs [TraceEv.cachePut it] = [] := rfl

theorem geoCallArgs_routeOrFallback (env : GeoEnv) (oa da : Option String)
    (o d : Coords) :
    geoCallArgs (routeOrFallback env oa da o d).2 = [] := by
  rw [routeOrFallback]
  rcases env.apiKey with _ | k
  · rfl
  · dsimp only
    rcases env.routingSeconds o d with _ | secs
    · rfl
    · rfl

theorem geoCallArgs_fallback_nn_of_none (env : GeoEnv)
    (oa da : Option String) (h : (callGeocoder env oa).1 = none) :
    geoCallArgs (calculate_travel_time_fallback env oa da none none).2
      = [oa] := by
  rw [calculate_travel_time_fallback]
  dsimp only
  simp only [h]
  exact geoCallArgs_callGeocoder env oa

theorem geoCallArgs_travel_dest (env : GeoEnv) (oa da : Option String)
    (oc : Option Coords) (d : Coords) :
    ∀ a ∈ geoCallArgs
        (calculate_travel_time_with_coords env oa da oc (some d)).2,
      a = oa := by
  rcases oc with _ | o
  · rw [calculate_travel_time_with_coords]
    dsimp only
    rcases ho : (callGeocoder env oa).1 with _ | o
    · simp only [ho]
      intro a ha
      rw [geoCallArgs_append, geoCallArgs_callGeocoder,
        geoCallArgs_fallback_nn_of_none env oa da ho] at ha
      simpa using ha
    · simp only [ho]
      intro a ha
      rw [geoCallArgs_append, geoCallArgs_callGeocoder,
        geoCallArgs_routeOrFallback] at ha
      simpa using ha
  · intro a ha
    rw [show calculate_travel_time_with_coords env oa da (some o) (some d)
        = routeOrFallback env oa da o d from rfl,
      geoCallArgs_routeOrFallback] at ha
    simp at ha

theorem geoCallArgs_calcEta_dest (env : GeoEnv) (lk : Locksmith)
    (target : String) (c : Coords) :
    ∀ a ∈ geoCallArgs (calculate_locksmith_eta env lk target (some c)).2,
      a = originArg env lk := by
  rcases lk with ⟨id, q, b⟩
  rcases q with _ | ⟨j, js⟩
  · rcases b with _ | bb
    · rw [calculate_locksmith_eta, originArg]
      dsimp only
      rcases hcfg : LOCKSMITH_BASE_ADDRESSES env.company with _ | cfg
      · intro a ha
        simp [geoCallArgs] at ha
      · dsimp only
        intro a ha
        rw [geoCallArgs_append, geoCallArgs_append,
          geoCallArgs_callGeocoder] at ha
        have hwr : geoCallArgs
            (match (callGeocoder env (some cfg)).1 with
              | some co => [TraceEv.baseWrite id cfg co]
              | none => []) = [] := by
          rcases (callGeocoder env (some cfg)).1 with _ | co
          · rfl
          · rfl
        rw [hwr, List.append_nil] at ha
        rcases List.mem_append.mp ha with hin | hin
        · simpa using hin
        · exact geoCallArgs_travel_dest env (some cfg) (some target) _ c a hin
    · rw [calculate_locksmith_eta, originArg]
      dsimp only
      intro a ha
      exact geoCallArgs_travel_dest env (some bb.address) (some target)
        bb.coords c a ha
  · rw [calculate_locksmith_eta, originArg]
    dsimp only
    intro a ha
    exact geoCallArgs_travel_dest env _ (some target) _ c a ha

theorem geoCallArgs_dispatchLoop_dest (env : GeoEnv) (target : String)
    (c : Coords) (xs : List Locksmith) :
    ∀ acc, ∀ a ∈ geoCallArgs (dispatchLoop env target (some c) xs acc).2,
      ∃ lk ∈ xs, a = originArg env lk := by
  induction xs with
  | nil =>
    intro acc a ha
    simp [dispatchLoop, geoCallArgs] at ha
  | cons x xs ih =>
    intro acc a ha
    rw [dispatchLoop] at ha
    dsimp only at ha
    rw [geoCallArgs_append] at ha
    rcases List.mem_append.mp ha with hin | hin
    · exact ⟨x, by simp, geoCallArgs_calcEta_dest env x target c a hin⟩
    · obtain ⟨lk, hmem, harg⟩ := ih _ a hin
      exact ⟨lk, by simp [hmem], harg⟩

/-- **C6** (amended).  For a non-empty technician list, the target address
is geocoded once before the technician loop; when that initial resolution
succeeds, its coordinates are shared by every technician evaluation, and
the only further geocoder calls are for technician origin addresses (cached
base, configured company base, or last queued job).  (When the initial
resolution fails, evaluations may re-resolve the target: see the
counterexample.) -/
theorem c6_shared_target (env : GeoEnv) (ls : List Locksmith)
    (target : String) (h : ls ≠ []) (c : Coords)
    (hsucc : fuzzyRes env (some target) = some c) :
    ∃ rest, geoCallArgs (find_earliest_locksmith env ls target).2
        = some target :: rest
      ∧ ∀ a ∈ rest, ∃ lk ∈ ls, a = originArg env lk := by
  rcases ls with _ | ⟨y, ys⟩
  · exact absurd rfl h
  rw [find_earliest_locksmith, if_neg (by simp)]
  dsimp only
  rw [geoCallArgs_append, geoCallArgs_append, geoCallArgs_callGeocoder,
    update_next_available_cache, geoCallArgs_cachePut, List.append_nil]
  rw [show (callGeocoder env (some target)).1 = fuzzyRes env (some target)
      from rfl, hsucc]
  refine ⟨geoCallArgs
      (dispatchLoop env target (some c) (y :: ys) (none, ⊤, 0)).2, rfl, ?_⟩
  intro a ha
  exact geoCallArgs_dispatchLoop_dest env target c (y :: ys) _ a ha

/-- An environment with a credential whose provider resolves nothing. -/
def envAllFail : GeoEnv :=
  { apiKey := some "key"
    provider := fun _ => none
    routingSeconds := fun _ _ => none
    company := "QuickFix" }

/-- An idle technician whose base address is cached with coordinates. -/
def lkC6 : Locksmith :=
  { locksmithId := some "L1"
    jobQueue := []
    base_address := some { address := "Base St", coords := some (0, 0) } }

/-- **C6** (counterexample).  When the initial resolution of the target
fails, a technician evaluation re-resolves the target address: in this
dispatch the target is passed to the Geocoder twice (once up front, once
from the travel estimator inside the technician evaluation), refuting
"no technician evaluation triggers a further Geocoder resolution of the
target address, including when the initial resolution fails". -/
theorem c6_counterexample :
    ((geoCallArgs (find_earliest_locksmith envAllFail [lkC6] "Target St").2).count
        (some "Target St")) = 2 := by
  decide

/-- An environment whose provider resolves exactly the target address. -/
def envC6W : GeoEnv :=
  { apiKey := some "key"
    provider := fun s => if s = "Target St" then some (0, 0) else none
    routingSeconds := fun _ _ => none
    company := "QuickFix" }

/-- Witness for the amended C6 at a concrete input. -/
theorem c6_witness :
    (([lkC6] : List Locksmith) ≠ []
        ∧ fuzzyRes envC6W (some "Target St") = some ((0 : ℝ), (0 : ℝ)))
      ∧ ∃ rest,
          geoCallArgs (find_earliest_locksmith envC6W [lkC6] "Target St").2
            = some "Target St" :: rest
          ∧ ∀ a ∈ rest, ∃ lk ∈ ([lkC6] : List Locksmith),
              a = originArg envC6W lk :=
  ⟨⟨List.cons_ne_nil _ _, rfl⟩,
    c6_shared_target envC6W [lkC6] "Target St" (List.cons_ne_nil _ _)
      ((0 : ℝ), (0 : ℝ)) rfl⟩

/-! ## Idempotence of the Normalized transform -/

theorem toNat_ofNat_valid {n : Nat} (h : n.isValidChar) :
    (Char.ofNat n).toNat = n := by
  simp only [Char.ofNat, h, dite_true, Char.ofNatAux, Char.toNat, UInt32.toNat]
  simp

theorem char_toUpper_toUpper (c : Char) : c.toUpper.toUpper = c.toUpper := by
  simp only [Char.toUpper]
  by_cases h : c.toNat ≥ 97 ∧ c.toNat ≤ 122
  · have hv : (c.toNat - 32).isValidChar := by
      left
      omega
    rw [if_pos h, if_neg]
    rw [toNat_ofNat_valid hv]
    omega
  · rw [if_neg h, if_neg h]

theorem char_toUpper_toLower (c : Char) : c.toLower.toUpper = c.toUpper := by
  simp only [Char.toLower, Char.toUpper]
  by_cases h : c.toNat ≥ 65 ∧ c.toNat ≤ 90
  · have hv : (c.toNat + 32).isValidChar := by
      left
      have := h.2
      omega
    rw [if_pos h, if_pos (by rw [toNat_ofNat_valid hv]; omega), if_neg (by omega)]
    rw [toNat_ofNat_valid hv, show c.toNat + 32 - 32 = c.toNat from by omega,
      Char.ofNat_toNat]
  · rw [if_neg h]

theorem upper_title (b : Bool) (l : List Char) :
    upperChars (titleChars b l) = upperChars l := by
  induction l generalizing b with
  | nil => rfl
  | cons c cs ih =>
    rw [titleChars]
    by_cases h : c.isAlpha
    · rw [if_pos h]
      show (if b then c.toLower else c.toUpper).toUpper
          :: upperChars (titleChars true cs) = c.toUpper :: upperChars cs
      rw [ih true]
      congr 1
      cases b
      · exact char_toUpper_toUpper c
      · exact char_toUpper_toLower c
    · rw [if_neg h]
      show c.toUpper :: upperChars (titleChars false cs)
          = c.toUpper :: upperChars cs
      rw [ih false]

theorem upperChars_eq_self (l : List Char) (h : ∀ c ∈ l, c.toUpper = c) :
    upperChars l = l := by
  induction l with
  | nil => rfl
  | cons c cs ih =>
    show c.toUpper :: upperChars cs = c :: cs
    rw [h c (by simp)]
    congr 1
    exact ih (fun x hx => h x (by simp [hx]))

theorem allUpper_upperChars (l : List Char) :
    ∀ c ∈ upperChars l, c.toUpper = c := by
  intro c hc
  obtain ⟨d, -, rfl⟩ := List.mem_map.mp hc
  exact char_toUpper_toUpper d

theorem allUpper_substWord (pat rep l : List Char)
    (hrep : ∀ c ∈ rep, c.toUpper = c) (hl : ∀ c ∈ l, c.toUpper = c) :
    ∀ c ∈ substWord pat rep l, c.toUpper = c := by
  intro c hc
  rw [substWord] at hc
  obtain ⟨t', ht', hct⟩ := List.mem_flatten.mp hc
  obtain ⟨t, ht, rfl⟩ := List.mem_map.mp ht'
  by_cases he : t = pat
  · rw [if_pos he] at hct
    exact hrep c hct
  · rw [if_neg he] at hct
    refine hl c ?_
    rw [← tokenize_flatten l]
    exact List.mem_flatten.mpr ⟨t, ht, hct⟩

theorem allUpper_foldl_substWord (ps : List (String × String))
    (hps : ∀ p ∈ ps, ∀ c ∈ p.2.data, c.toUpper = c) :
    ∀ l, (∀ c ∈ l, c.toUpper = c) →
      ∀ c ∈ ps.foldl (fun a p => substWord p.1.data p.2.data a) l,
        c.toUpper = c := by
  induction ps with
  | nil =>
    intro l hl
    exact hl
  | cons p ps ih =>
    intro l hl
    rw [List.foldl_cons]
    exact ih (fun q hq => hps q (by simp [hq])) _
      (allUpper_substWord p.1.data p.2.data l (hps p (by simp)) hl)

/-- The `\b`-class of the head character (arbitrary for the empty list). -/
def headClass : List Char → Bool
  | [] => true
  | c :: _ => isWordChar c

/-- Well-formed token lists: nonempty runs of alternating word/non-word
class, starting with class `b` — the shape `tokenize` produces. -/
inductive GoodToks : Bool → List (List Char) → Prop
  | nil (b : Bool) : GoodToks b []
  | cons (b : Bool) (t : List Char) (ts : List (List Char)) :
      t ≠ [] → (∀ c ∈ t, isWordChar c = b) → GoodToks (!b) ts →
      GoodToks b (t :: ts)

theorem goodToks_tokenize (l : List Char) :
    GoodToks (headClass l) (tokenize l) := by
  induction l with
  | nil => exact GoodToks.nil true
  | cons c cs ih =>
    rw [tokenize]
    rcases h : tokenize cs with _ | ⟨t, ts⟩
    · exact GoodToks.cons _ [c] []
        (by simp) (by simp [headClass]) (GoodToks.nil _)
    · rw [h] at ih
      rcases t with _ | ⟨d, du⟩
      · cases ih with
        | cons _ _ _ hne _ _ => exact absurd rfl hne
      · have hd : isWordChar d = headClass cs := by
          cases ih with
          | cons _ _ _ _ hall _ => exact hall d (by simp)
        dsimp only
        by_cases hc : isWordChar c = isWordChar d
        · rw [if_pos hc]
          cases ih with
          | cons _ _ _ hne hall htail =>
            refine GoodToks.cons _ _ _ (by simp) ?_ ?_
            · intro x hx
              rcases List.mem_cons.mp hx with rfl | hx2
              · simp [headClass]
              · rw [hall x hx2, ← hd, ← hc]
                simp [headClass]
            · have hcls : (!(headClass (c :: cs))) = (!(headClass cs)) := by
                rw [show headClass (c :: cs) = isWordChar c from rfl, hc, hd]
              rw [hcls]
              exact htail
        · rw [if_neg hc]
          refine GoodToks.cons _ [c] _ (by simp) (by simp [headClass]) ?_
          have hcls : (!(headClass (c :: cs))) = headClass cs := by
            rw [show headClass (c :: cs) = isWordChar c from rfl, ← hd]
            rcases Bool.eq_false_or_eq_true (isWordChar c) with h1 | h1
            · rcases Bool.eq_false_or_eq_true (isWordChar d) with h2 | h2
              · rw [h1, h2] at hc
                exact absurd rfl hc
              · rw [h1, h2]
                rfl
            · rcases Bool.eq_false_or_eq_true (isWordChar d) with h2 | h2
              · rw [h1, h2]
                rfl
              · rw [h1, h2] at hc
                exact absurd rfl hc
          rw [hcls]
          exact ih

theorem tokenize_append_of_homog (b : Bool) :
    ∀ t : List Char, t ≠ [] → (∀ c ∈ t, isWordChar c = b) →
      ∀ r : List Char,
        (tokenize r = []
          ∨ ∃ d du us, tokenize r = (d :: du) :: us ∧ isWordChar d = (!b)) →
      tokenize (t ++ r) = t :: tokenize r := by
  intro t
  induction t with
  | nil =>
    intro h
    exact absurd rfl h
  | cons c t ih =>
    intro _ hall r hr
    rcases t with _ | ⟨c2, t'⟩
    · show tokenize (c :: r) = [c] :: tokenize r
      rw [tokenize]
      rcases hr with hnil | ⟨d, du, us, heq, hd⟩
      · rw [hnil]
      · rw [heq]
        dsimp only
        rw [if_neg]
        rw [hall c (by simp), hd]
        rcases Bool.eq_false_or_eq_true b with h1 | h1
        · rw [h1]
          simp
        · rw [h1]
          simp
    · show tokenize (c :: ((c2 :: t') ++ r)) = (c :: c2 :: t') :: tokenize r
      rw [tokenize,
        ih (List.cons_ne_nil _ _) (fun x hx => hall x (by simp [hx])) r hr]
      dsimp only
      rw [if_pos (by rw [hall c (by simp), hall c2 (by simp)])]

theorem tokenize_flatten_good :
    ∀ {b : Bool} {ts : List (List Char)}, GoodToks b ts →
      tokenize ts.flatten = ts := by
  intro b ts h
  induction h with
  | nil b => rfl
  | cons b t ts hne hall htail ih =>
    rw [List.flatten_cons]
    have hr : tokenize ts.flatten = []
        ∨ ∃ d du us, tokenize ts.flatten = (d :: du) :: us
            ∧ isWordChar d = (!b) := by
      rcases ts with _ | ⟨u, us⟩
      · exact Or.inl ih
      · cases htail with
        | cons _ _ _ hune huall _ =>
          rcases u with _ | ⟨d, du⟩
          · exact absurd rfl hune
          · exact Or.inr ⟨d, du, us, ih, huall d (by simp)⟩
    rw [tokenize_append_of_homog b t hne hall ts.flatten hr, ih]

theorem goodToks_map {f : List Char → List Char}
    (hf : ∀ (b : Bool) (t : List Char), t ≠ [] →
      (∀ c ∈ t, isWordChar c = b) →
      f t ≠ [] ∧ ∀ c ∈ f t, isWordChar c = b) :
    ∀ {b : Bool} {ts : List (List Char)}, GoodToks b ts →
      GoodToks b (ts.map f) := by
  intro b ts h
  induction h with
  | nil b => exact GoodToks.nil b
  | cons b t ts hne hall htail ih =>
    rw [List.map_cons]
    exact GoodToks.cons _ _ _ (hf b t hne hall).1 (hf b t hne hall).2 ih

/-- The per-token effect of one whole-word substitution. -/
def tokMap (pat rep t : List Char) : List Char := if t = pat then rep else t

/-- The per-token effect of the whole abbreviation pass. -/
def applyAbbrevs (ps : List (String × String)) (t : List Char) : List Char :=
  ps.foldl (fun t p => if t = p.1.data then p.2.data else t) t

/-- A usable abbreviation pair: nonempty all-word-character pattern and
replacement (all `abbrev_map` entries are). -/
def okPair (p : String × String) : Prop :=
  p.1.data ≠ [] ∧ p.2.data ≠ []
    ∧ (∀ c ∈ p.1.data, isWordChar c = true)
    ∧ (∀ c ∈ p.2.data, isWordChar c = true)

instance okPair_decidable (p : String × String) : Decidable (okPair p) :=
  decidable_of_iff
    (p.1.data ≠ [] ∧ p.2.data ≠ []
      ∧ (∀ c ∈ p.1.data, isWordChar c = true)
      ∧ (∀ c ∈ p.2.data, isWordChar c = true)) Iff.rfl

theorem tokMap_good (pat rep : List Char) (hr : rep ≠ [])
    (hpw : ∀ c ∈ pat, isWordChar c = true)
    (hrw : ∀ c ∈ rep, isWordChar c = true) :
    ∀ (b : Bool) (t : List Char), t ≠ [] → (∀ c ∈ t, isWordChar c = b) →
      tokMap pat rep t ≠ [] ∧ ∀ c ∈ tokMap pat rep t, isWordChar c = b := by
  intro b t hne hall
  rw [tokMap]
  by_cases he : t = pat
  · rw [if_pos he]
    have hb : b = true := by
      rcases t with _ | ⟨c, cs⟩
      · exact absurd rfl hne
      · have h1 : isWordChar c = b := hall c (by simp)
        have h2 : isWordChar c = true := by
          apply hpw
          rw [← he]
          simp
        rw [← h1, h2]
    subst hb
    exact ⟨hr, hrw⟩
  · rw [if_neg he]
    exact ⟨hne, hall⟩

theorem applyAbbrevs_good (ps : List (String × String))
    (hps : ∀ p ∈ ps, okPair p) :
    ∀ (b : Bool) (t : List Char), t ≠ [] → (∀ c ∈ t, isWordChar c = b) →
      applyAbbrevs ps t ≠ [] ∧ ∀ c ∈ applyAbbrevs ps t, isWordChar c = b := by
  induction ps with
  | nil =>
    intro b t hne hall
    exact ⟨hne, hall⟩
  | cons p ps ih =>
    intro b t hne hall
    have hok := hps p (by simp)
    have hstep := tokMap_good p.1.data p.2.data hok.2.1 hok.2.2.1 hok.2.2.2
      b t hne hall
    rw [applyAbbrevs, List.foldl_cons]
    exact ih (fun q hq => hps q (by simp [hq])) b
      (tokMap p.1.data p.2.data t) hstep.1 hstep.2

theorem foldl_substWord_tokens (ps : List (String × String)) :
    (∀ p ∈ ps, okPair p) → ∀ l : List Char,
      ps.foldl (fun a p => substWord p.1.data p.2.data a) l
        = ((tokenize l).map (applyAbbrevs ps)).flatten := by
  induction ps with
  | nil =>
    intro _ l
    rw [List.foldl_nil]
    have hmap : (tokenize l).map (applyAbbrevs []) = tokenize l := by
      rw [show applyAbbrevs [] = fun t => t from rfl, List.map_id']
    rw [hmap, tokenize_flatten]
  | cons p ps ih =>
    intro hps l
    have hok := hps p (by simp)
    rw [List.foldl_cons,
      ih (fun q hq => hps q (by simp [hq])) (substWord p.1.data p.2.data l)]
    have hg : GoodToks (headClass l)
        ((tokenize l).map (tokMap p.1.data p.2.data)) :=
      goodToks_map
        (tokMap_good p.1.data p.2.data hok.2.1 hok.2.2.1 hok.2.2.2)
        (goodToks_tokenize l)
    have ht : tokenize (substWord p.1.data p.2.data l)
        = (tokenize l).map (tokMap p.1.data p.2.data) := by
      rw [show substWord p.1.data p.2.data l
          = ((tokenize l).map (tokMap p.1.data p.2.data)).flatten from rfl]
      exact tokenize_flatten_good hg
    rw [ht, List.map_map]
    rfl

theorem applyAbbrevs_fix (ps : List (String × String)) (t : List Char)
    (h : ∀ p ∈ ps, t ≠ p.1.data) : applyAbbrevs ps t = t := by
  induction ps with
  | nil => rfl
  | cons p ps ih =>
    rw [applyAbbrevs, List.foldl_cons, if_neg (h p (by simp))]
    exact ih (fun q hq => h q (by simp [hq]))

theorem applyAbbrevs_result (ps : List (String × String)) :
    ∀ t, applyAbbrevs ps t = t ∨ ∃ p ∈ ps, applyAbbrevs ps t = p.2.data := by
  induction ps with
  | nil =>
    intro t
    exact Or.inl rfl
  | cons p ps ih =>
    intro t
    rw [applyAbbrevs, List.foldl_cons]
    by_cases he : t = p.1.data
    · rw [if_pos he]
      rcases ih p.2.data with h1 | ⟨q, hq, h2⟩
      · exact Or.inr ⟨p, by simp, h1⟩
      · exact Or.inr ⟨q, by simp [hq], h2⟩
    · rw [if_neg he]
      rcases ih t with h1 | ⟨q, hq, h2⟩
      · exact Or.inl h1
      · exact Or.inr ⟨q, by simp [hq], h2⟩

theorem applyAbbrevs_idem (ps : List (String × String))
    (hvk : ∀ p ∈ ps, ∀ q ∈ ps, p.2.data ≠ q.1.data) (t : List Char) :
    applyAbbrevs ps (applyAbbrevs ps t) = applyAbbrevs ps t := by
  rcases applyAbbrevs_result ps t with h | ⟨p, hp, h⟩
  · rw [h, h]
  · rw [h]
    exact applyAbbrevs_fix ps p.2.data (fun q hq => hvk p hp q hq)

theorem map_map_idem {α : Type} (f : α → α) (ts : List α)
    (h : ∀ t, f (f t) = f t) : (ts.map f).map f = ts.map f := by
  induction ts with
  | nil => rfl
  | cons t ts ih =>
    rw [List.map_cons, List.map_cons, h, ih]

theorem foldPairs_fixpoint (l : List Char) :
    abbrev_map.foldl (fun a p => substWord p.1.data p.2.data a)
        (abbrev_map.foldl (fun a p => substWord p.1.data p.2.data a) l)
      = abbrev_map.foldl (fun a p => substWord p.1.data p.2.data a) l := by
  have hok : ∀ p ∈ abbrev_map, okPair p := by decide
  have hvk : ∀ p ∈ abbrev_map, ∀ q ∈ abbrev_map, p.2.data ≠ q.1.data := by
    decide
  have hg : GoodToks (headClass l)
      ((tokenize l).map (applyAbbrevs abbrev_map)) :=
    goodToks_map (applyAbbrevs_good abbrev_map hok) (goodToks_tokenize l)
  rw [foldl_substWord_tokens abbrev_map hok l,
    foldl_substWord_tokens abbrev_map hok
      ((tokenize l).map (applyAbbrevs abbrev_map)).flatten,
    tokenize_flatten_good hg]
  exact congrArg List.flatten
    (map_map_idem (applyAbbrevs abbrev_map) (tokenize l)
      (applyAbbrevs_idem abbrev_map hvk))

theorem string_data_mk (l : List Char) : (String.mk l).data = l := rfl

set_option maxHeartbeats 1600000 in
/-- **C8**.  The Normalized transform is idempotent. -/
theorem c8_normalize_idem (a : String) :
    normalize_address (normalize_address a) = normalize_address a := by
  by_cases ha : a = ""
  · rw [ha]
    rfl
  · have h1 : normalize_address a
        = ⟨titleChars false
            (abbrev_map.foldl (fun x p => substWord p.1.data p.2.data x)
              (upperChars a.data))⟩ := by
      rw [normalize_address, if_neg ha]
    have hne := normalize_address_ne_empty a ha
    rw [h1] at hne ⊢
    rw [normalize_address, if_neg hne]
    refine congrArg String.mk ?_
    rw [string_data_mk, upper_title,
      upperChars_eq_self _
        (allUpper_foldl_substWord abbrev_map (by decide) (upperChars a.data)
          (allUpper_upperChars a.data)),
      foldPairs_fixpoint]
